import Mathlib

/-!
Shallow embedding of the kansuke scheduling-poll service core:
the vote ledger (`upsertVotes3`), tally aggregation (`getPollTally3`),
the quorum-detection cascade of `checkAndPromptClose` (src/index.js),
the poll store (`createPoll`, `getPoll`, `setPollStatus`,
`setPollFinalizedDate` from src/lib/db.js) and the postback handlers
(`vote:`, `close:`, `finalize:` branches of `handlePostback` in
src/lib/line.js).  Generated identifiers (crypto.randomUUID) and the
current time (Date.now) are passed as explicit parameters.
-/

namespace Kansuke

/-- A row of the `votes3` table (db.js lines 55-65): primary key
`(poll_id, option_id, user_id)`, a ternary `choice` and bookkeeping
columns `user_name`, `updated_at`. -/
structure VoteRow where
  pollId : String
  optionId : String
  userId : String
  userName : Option String
  choice : Int
  updatedAt : Nat
deriving Repr, DecidableEq

/-- The `votes3` table as a list of rows in insertion (rowid) order. -/
abbrev VState := List VoteRow

/-- A row of the `polls` table, including the columns added by the
migration block (deadline, finalized_date); `follow_up_state` is never
read by the embedded operations and is omitted. -/
structure PollRow where
  id : String
  groupId : String
  title : String
  createdAt : Nat
  status : String
  deadline : Option Nat
  finalizedDate : Option String
deriving Repr, DecidableEq

/-- A row of the `options` table. -/
structure OptionRow where
  id : String
  pollId : String
  label : String
  date : Option String
deriving Repr, DecidableEq

/-- The persistent state touched by the embedded operations. -/
structure DB where
  polls : List PollRow
  options : List OptionRow
  votes3 : List VoteRow
deriving Repr, DecidableEq

/-- One element of the `choices` array passed to `upsertVotes3`.
`optionId = none` models an entry whose `optionId` field is missing or
not a string; `choice = none` models a value on which `Number(...)`
yields NaN; `choice = some k` models a numeric value `k`. -/
structure RawChoice where
  optionId : Option String
  choice : Option Int
deriving Repr, DecidableEq

/-- Does a row carry the primary key `(p, o, u)`? -/
def keyMatch (p o u : String) (r : VoteRow) : Bool :=
  r.pollId = p && r.optionId = o && r.userId = u

/-- One `INSERT ... ON CONFLICT(poll_id, option_id, user_id) DO UPDATE`
statement (db.js lines 206-210): if a row with the key exists it is
updated in place (choice, user_name, updated_at), otherwise a fresh row
is appended. -/
def upsertOne (s : VState) (p o u : String) (nm : Option String) (c : Int)
    (now : Nat) : VState :=
  if s.any (keyMatch p o u) then
    s.map (fun r => if keyMatch p o u r then ⟨p, o, u, nm, c, now⟩ else r)
  else s ++ [⟨p, o, u, nm, c, now⟩]

/-- The loop body of `upsertVotes3` (db.js lines 211-221): for each raw
entry, skip it unless `optionId` is a string, skip it unless
`Number(choice)` is 0, 1 or 2, skip it if the `optionId` was already
seen in this batch, otherwise upsert it. -/
def upsertLoop (p u : String) (nm : Option String) (now : Nat) :
    List RawChoice → List String → VState → VState
  | [], _, s => s
  | ch :: rest, seen, s =>
    match ch.optionId with
    | none => upsertLoop p u nm now rest seen s
    | some oid =>
      match ch.choice with
      | none => upsertLoop p u nm now rest seen s
      | some c =>
        if c = 0 ∨ c = 1 ∨ c = 2 then
          if oid ∈ seen then upsertLoop p u nm now rest seen s
          else upsertLoop p u nm now rest (oid :: seen) (upsertOne s p oid u nm c now)
        else upsertLoop p u nm now rest seen s

/-- `upsertVotes3({pollId, userId, userName, choices})` (db.js lines
204-223): one transaction that validates, deduplicates and upserts the
batch. -/
def upsertVotes3 (s : VState) (pollId userId : String) (userName : Option String)
    (choices : List RawChoice) (now : Nat) : VState :=
  upsertLoop pollId userId userName now choices [] s

/-- The vote rows joined to an option by
`v.option_id = o.id AND v.poll_id = o.poll_id`. -/
def optionRows (s : VState) (o : OptionRow) : List VoteRow :=
  s.filter (fun r => r.optionId = o.id && r.pollId = o.pollId)

/-- One row of the `getPollTally3` result set. -/
structure TallyRow where
  optionId : String
  label : String
  yesCount : Nat
  maybeCount : Nat
  noCount : Nat
deriving Repr, DecidableEq

/-- The aggregate row `getPollTally3` computes for one option (db.js
lines 176-179): conditional counts of choices 2, 1 and 0 over the
joined vote rows. -/
def tallyFor (s : VState) (o : OptionRow) : TallyRow :=
  { optionId := o.id
    label := o.label
    yesCount := ((optionRows s o).filter (fun r => r.choice = 2)).length
    maybeCount := ((optionRows s o).filter (fun r => r.choice = 1)).length
    noCount := ((optionRows s o).filter (fun r => r.choice = 0)).length }

/-- `getPollTally3(pollId)` (db.js lines 173-188): one tally row per
option of the poll, in option insertion order. -/
def getPollTally3 (db : DB) (pollId : String) : List TallyRow :=
  (db.options.filter (fun o => o.pollId = pollId)).map (tallyFor db.votes3)

/-- The COUNT(*) that `getAnswerCountsByUser` reports for one user:
the number of the user's vote rows in the poll. -/
def answerCount (s : VState) (pollId userId : String) : Nat :=
  (s.filter (fun r => r.pollId = pollId && r.userId = userId)).length

/-- The distinct `user_id`s holding at least one vote row in the poll:
the groups of `getAnswerCountsByUser`'s GROUP BY user_id (db.js lines
199-203). -/
def pollVoters (s : VState) (pollId : String) : List String :=
  ((s.filter (fun r => r.pollId = pollId)).map (fun r => r.userId)).dedup

/-- The `completedUsers` of `checkAndPromptClose` (index.js line 242):
distinct users whose answer count reaches the number of options. -/
def completedUsers (s : VState) (pollId : String) (nOpts : Nat) : List String :=
  (pollVoters s pollId).filter (fun u => nOpts ≤ answerCount s pollId u)

/-- Strategy 2 of `checkAndPromptClose` (index.js lines 250-255): filter
the bot id and falsy ids out of the member-id list; quorum iff the
remaining list is non-empty and every remaining member answered all
options. -/
def strategy2 (s : VState) (pollId : String) (nOpts : Nat)
    (memberIds : List String) (bot : String) : Bool :=
  let humanIds := memberIds.filter (fun i => i ≠ "" && i ≠ bot)
  !humanIds.isEmpty && humanIds.all (fun uid => nOpts ≤ answerCount s pollId uid)

/-- Strategy 3 of `checkAndPromptClose` (index.js lines 257-264): the
distinct truthy voter ids; quorum iff that set is non-empty, every
member of it answered all options, and it has at least two members. -/
def strategy3 (s : VState) (pollId : String) (nOpts : Nat) : Bool :=
  let uniqueVoters :=
    (((s.filter (fun r => r.pollId = pollId)).map (fun r => r.userId)).filter
      (fun u => u ≠ "")).dedup
  (!uniqueVoters.isEmpty && uniqueVoters.all (fun uid => nOpts ≤ answerCount s pollId uid))
    && decide (2 ≤ uniqueVoters.length)

/-- The else-branch of `checkAndPromptClose`'s membership dispatch
(index.js lines 248-265): compute `allAnswered` from strategy 2, and if
it is false, possibly flip it to true via the strategy-3 fallback. -/
def quorumFallback (s : VState) (pollId : String) (nOpts : Nat)
    (memberIds : List String) (bot : String) : Bool :=
  let allAnswered := strategy2 s pollId nOpts memberIds bot
  if allAnswered then allAnswered
  else if strategy3 s pollId nOpts then true
  else allAnswered

/-- The quorum decision of `checkAndPromptClose` (index.js lines
239-265): if the official member count is a number greater than zero,
compare it with the number of complete users; otherwise run the
member-id branch with its voter-self-consistency fallback.
`memberCount = none` models `getHumanMemberCount` returning null. -/
def quorumDecision (s : VState) (pollId : String) (nOpts : Nat)
    (memberCount : Option Int) (memberIds : List String) (bot : String) : Bool :=
  match memberCount with
  | some m =>
    if 0 < m then decide (m ≤ ((completedUsers s pollId nOpts).length : Int))
    else quorumFallback s pollId nOpts memberIds bot
  | none => quorumFallback s pollId nOpts memberIds bot

/-- The label/date payload of one option passed to `createPoll`;
`date = none` models a missing or falsy `date` field (`opt.date || null`). -/
structure NewOption where
  label : String
  date : Option String
deriving Repr, DecidableEq

/-- `createPoll({groupId, title, options})` (db.js lines 127-145): one
transaction inserting the poll row with status 'open' and one option
row per element of `options`.  The generated UUIDs are passed in as
`pollId` and as the first components of `opts`. -/
def createPoll (db : DB) (pollId groupId title : String) (now : Nat)
    (opts : List (String × NewOption)) : DB :=
  { db with
    polls := db.polls ++ [⟨pollId, groupId, title, now, "open", none, none⟩]
    options := db.options ++
      opts.map (fun oo => ⟨oo.1, pollId, oo.2.label, oo.2.date⟩) }

/-- `getPoll(pollId)` (db.js lines 146-153): the poll row (unique by
primary key) together with its option rows in rowid order, or null. -/
def getPoll (db : DB) (pollId : String) : Option (PollRow × List OptionRow) :=
  match db.polls.find? (fun p => p.id = pollId) with
  | none => none
  | some p => some (p, db.options.filter (fun o => o.pollId = pollId))

/-- `setPollStatus(pollId, status)` (db.js lines 154-156). -/
def setPollStatus (db : DB) (pollId status : String) : DB :=
  { db with polls := db.polls.map (fun p =>
      if p.id = pollId then { p with status := status } else p) }

/-- `setPollFinalizedDate(pollId, date)` (db.js lines 89-91). -/
def setPollFinalizedDate (db : DB) (pollId : String) (date : Option String) : DB :=
  { db with polls := db.polls.map (fun p =>
      if p.id = pollId then { p with finalizedDate := date } else p) }

/-- `getUserChoice3({pollId, userId, optionId})` (db.js lines 194-198). -/
def getUserChoice3 (db : DB) (pollId userId optionId : String) : Option VoteRow :=
  db.votes3.find? (fun r => r.pollId = pollId && r.userId = userId && r.optionId = optionId)

/-- A response of the `POST /api/polls/:pollId/votes3` route. -/
inductive ApiResp where
  | notFound
  | forbidden (err : String)
  | ok (tally : List TallyRow)
deriving Repr, DecidableEq

/-- The HTTP status code of a response: 404, 403 or 200. -/
def ApiResp.statusCode : ApiResp → Nat
  | .notFound => 404
  | .forbidden _ => 403
  | .ok _ => 200

/-- The `POST /api/polls/:pollId/votes3` handler after authentication
(index.js lines 142-152): 404 for an unknown poll, 403 `poll_closed` if
the status is not 'open', 403 `deadline_passed` if the deadline column
is truthy and strictly earlier than now, otherwise upsert the batch and
answer 200 with the fresh tally.  Returns the response together with
the resulting store. -/
def postVotes3 (db : DB) (pollId uid : String) (name : Option String)
    (choices : List RawChoice) (now : Nat) : ApiResp × DB :=
  match getPoll db pollId with
  | none => (.notFound, db)
  | some po =>
    if po.1.status ≠ "open" then (.forbidden "poll_closed", db)
    else if (match po.1.deadline with
             | some d => d ≠ 0 && decide (d < now)
             | none => false) then (.forbidden "deadline_passed", db)
    else
      let db' := { db with votes3 := upsertVotes3 db.votes3 pollId uid name choices now }
      (.ok (getPollTally3 db' pollId), db')

/-- A message sent back to the chat platform.  Texts are kept verbatim;
flex and confirm-template payloads are abstracted to their kind, since
no embedded operation reads them back. -/
inductive Msg where
  | text (s : String)
  | flex
  | confirmTemplate
deriving Repr, DecidableEq

/-- An observable side effect of a postback handler. -/
inductive Eff where
  | reply (msgs : List Msg)
  | push (target : String) (msgs : List Msg)
  | publishTally (pollId : String) (tally : List TallyRow)
deriving Repr, DecidableEq

/-- `formatTally3` (line.js lines 317-321). -/
def formatTally3 (rows : List TallyRow) : String :=
  String.intercalate "\n" (rows.map (fun r =>
    r.label ++ ": ○" ++ toString r.yesCount ++ " / △" ++ toString r.maybeCount
      ++ " / ×" ++ toString r.noCount))

/-- The `vote:` branch of `handlePostback` (line.js lines 141-163): if
the caller's recorded choice for the option is already 2 (○), only an
acknowledgement is sent; otherwise the single choice `(optionId, 2)` is
upserted, the new tally is published, and a two-message reply is sent. -/
def votePostback (db : DB) (pollId optionId userId : String)
    (userName : Option String) (now : Nat) : DB × List Eff :=
  let recorded := getUserChoice3 db pollId userId optionId
  if (match recorded with
      | some r => decide (r.choice = 2)
      | none => false) then
    (db, [.reply [.text "この候補への○は既に記録されています。"]])
  else
    let db' := { db with votes3 :=
      (upsertVotes3 db.votes3 pollId userId userName [⟨some optionId, some 2⟩] now) }
    let tally := getPollTally3 db' pollId
    (db', [.publishTally pollId tally,
           .reply [.text ("投票を記録しました (" ++ (userName.getD "ユーザー") ++ ")"),
                   .text ("現在の集計\n" ++ formatTally3 tally)]])

/-- The `close:` branch of `handlePostback` (line.js lines 173-232):
unknown poll → error reply; status already 'closing' or 'closed' →
informational reply, no change; answer 'yes' → status set to 'closing'
and a finalize carousel sent; any other answer → informational reply,
no state change. -/
def closePostback (db : DB) (pollId yn : String) : DB × List Eff :=
  match getPoll db pollId with
  | none => (db, [.reply [.text "対象の投票が見つかりませんでした。"]])
  | some po =>
    if po.1.status = "closing" || po.1.status = "closed" then
      (db, [.reply [.text (if po.1.status = "closed" then "すでに確定済みです。"
                           else "すでに締切処理中です。")]])
    else if yn = "yes" then
      (setPollStatus db pollId "closing",
       [.reply [.text "締め切りの承認ありがとうございます。最終候補を選んでください。", .flex]])
    else
      (db, [.reply [.text "了解しました。引き続き投票を受け付けます。"]])

/-- The `finalize:` branch of `handlePostback` (line.js lines 234-258):
unknown poll or option → failure reply; status already 'closed' →
informational reply, no change; otherwise the status is set to 'closed',
the group is notified (when the group id is truthy) and the caller gets
an acknowledgement.  Note that only the status column is written. -/
def finalizePostback (db : DB) (pollId optionId : String) : DB × List Eff :=
  match getPoll db pollId with
  | none => (db, [.reply [.text "確定に失敗: poll_not_found"]])
  | some po =>
    if po.1.status = "closed" then
      (db, [.reply [.text "すでに確定済みです。"]])
    else
      match po.2.find? (fun o => o.id = optionId) with
      | none => (db, [.reply [.text "確定に失敗: option_not_found"]])
      | some opt =>
        let db' := setPollStatus db pollId "closed"
        let note := "「" ++ po.1.title ++ "」は " ++ opt.label ++ " に確定しました。"
        (db',
         (if po.1.groupId ≠ "" then [Eff.push po.1.groupId [.text note]] else [])
           ++ [.reply [.text "確定しました。グループに通知しました。"]])

/-! Spec-side descriptions, to be compared with the code embeddings. -/

/-- Described by the spec: the entries of a batch that survive the
per-entry validation — `optionId` is a string and the numeric choice is
0, 1 or 2 — reduced to `(optionId, choice)` pairs. -/
def validEntries (choices : List RawChoice) : List (String × Int) :=
  choices.filterMap (fun ch =>
    match ch.optionId, ch.choice with
    | some oid, some c => if c = 0 ∨ c = 1 ∨ c = 2 then some (oid, c) else none
    | _, _ => none)

/-- Keep the first occurrence of each `optionId`, dropping the ones
already in `seen`. -/
def dedupFirst : List (String × Int) → List String → List (String × Int)
  | [], _ => []
  | (oid, c) :: rest, seen =>
    if oid ∈ seen then dedupFirst rest seen
    else (oid, c) :: dedupFirst rest (oid :: seen)

/-- Described by the spec: the batch actually upserted — valid entries,
first occurrence of each repeated `optionId` kept. -/
def canonicalBatch (choices : List RawChoice) : List (String × Int) :=
  dedupFirst (validEntries choices) []

/-- Apply a list of already-validated `(optionId, choice)` pairs as
successive single-row upserts. -/
def applyBatch (p u : String) (nm : Option String) (now : Nat) :
    VState → List (String × Int) → VState
  | s, [] => s
  | s, e :: rest => applyBatch p u nm now (upsertOne s p e.1 u nm e.2 now) rest

/-- Described by the spec (amended): the quorum cascade as a first-
success dispatch — a positive official member count decides alone;
otherwise the decision is the disjunction of strategy 2 (member-id
enumeration) and strategy 3 (voter self-consistency). -/
def quorumCascadeSpec (s : VState) (pollId : String) (nOpts : Nat)
    (memberCount : Option Int) (memberIds : List String) (bot : String) : Bool :=
  match memberCount with
  | some m =>
    if 0 < m then decide (m ≤ ((completedUsers s pollId nOpts).length : Int))
    else strategy2 s pollId nOpts memberIds bot || strategy3 s pollId nOpts
  | none => strategy2 s pollId nOpts memberIds bot || strategy3 s pollId nOpts

/-! Helper lemmas shared by the claim theorems. -/

/-- The validation loop of `upsertVotes3`, run with an arbitrary seen
set, upserts exactly the entries that survive filtering against the
seen set. -/
theorem upsertLoop_eq (p u : String) (nm : Option String) (now : Nat) :
    ∀ (choices : List RawChoice) (seen : List String) (s : VState),
    upsertLoop p u nm now choices seen s
      = applyBatch p u nm now s (dedupFirst (validEntries choices) seen) := by
  intro choices
  induction choices with
  | nil => intro seen s; rfl
  | cons ch rest ih =>
    intro seen s
    cases hoid : ch.optionId with
    | none =>
      simp only [upsertLoop, hoid, validEntries, List.filterMap_cons]
      exact ih seen s
    | some oid =>
      cases hc : ch.choice with
      | none =>
        simp only [upsertLoop, hoid, hc, validEntries, List.filterMap_cons]
        exact ih seen s
      | some c =>
        by_cases hv : c = 0 ∨ c = 1 ∨ c = 2
        · by_cases hseen : oid ∈ seen
          · simp only [upsertLoop, hoid, hc, if_pos hv, if_pos hseen,
              validEntries, List.filterMap_cons, dedupFirst]
            exact ih seen s
          · simp only [upsertLoop, hoid, hc, if_pos hv, if_neg hseen,
              validEntries, List.filterMap_cons, dedupFirst]
            rw [applyBatch]
            exact ih (oid :: seen) (upsertOne s p oid u nm c now)
        · simp only [upsertLoop, hoid, hc, if_neg hv, validEntries, List.filterMap_cons]
          exact ih seen s

/-- A `upsertVotes3` call is the sequential upsert of the canonical
batch: valid entries only, first occurrence of each `optionId` kept. -/
theorem upsertVotes3_eq_applyBatch (s : VState) (p u : String) (nm : Option String)
    (choices : List RawChoice) (now : Nat) :
    upsertVotes3 s p u nm choices now = applyBatch p u nm now s (canonicalBatch choices) :=
  upsertLoop_eq p u nm now choices [] s

theorem keyMatch_iff (p o u : String) (r : VoteRow) :
    keyMatch p o u r = true ↔ r.pollId = p ∧ r.optionId = o ∧ r.userId = u := by
  simp [keyMatch, and_assoc]

theorem answerCount_le_upsertOne (s : VState) (p o u : String) (nm : Option String)
    (c : Int) (now : Nat) (pid u' : String) :
    answerCount s pid u' ≤ answerCount (upsertOne s p o u nm c now) pid u' := by
  unfold upsertOne answerCount
  by_cases h : s.any (keyMatch p o u) = true
  · rw [if_pos h, ← List.countP_eq_length_filter, ← List.countP_eq_length_filter,
      List.countP_map]
    apply Nat.le_of_eq
    apply List.countP_congr
    intro r _
    by_cases hk : keyMatch p o u r = true
    · obtain ⟨h1, _, h3⟩ := (keyMatch_iff p o u r).1 hk
      simp [Function.comp, hk, h1, h3]
    · simp [Function.comp, hk]
  · rw [if_neg h, List.filter_append, List.length_append]
    exact Nat.le_add_right _ _

theorem answerCount_le_upsertLoop (p u : String) (nm : Option String) (now : Nat) :
    ∀ (choices : List RawChoice) (seen : List String) (s : VState) (pid u' : String),
    answerCount s pid u' ≤ answerCount (upsertLoop p u nm now choices seen s) pid u' := by
  intro choices
  induction choices with
  | nil => intro seen s pid u'; exact Nat.le_refl _
  | cons ch rest ih =>
    intro seen s pid u'
    obtain ⟨coid, cc⟩ := ch
    cases coid with
    | none => simp only [upsertLoop]; exact ih seen s pid u'
    | some oid =>
      cases cc with
      | none => simp only [upsertLoop]; exact ih seen s pid u'
      | some c =>
        by_cases hv : c = 0 ∨ c = 1 ∨ c = 2
        · by_cases hseen : oid ∈ seen
          · simp only [upsertLoop, if_pos hv, if_pos hseen]
            exact ih seen s pid u'
          · simp only [upsertLoop, if_pos hv, if_neg hseen]
            exact Nat.le_trans (answerCount_le_upsertOne s p oid u nm c now pid u')
              (ih (oid :: seen) _ pid u')
        · simp only [upsertLoop, if_neg hv]
          exact ih seen s pid u'

theorem answerCount_le_upsertVotes3 (s : VState) (p u : String) (nm : Option String)
    (choices : List RawChoice) (now : Nat) (pid u' : String) :
    answerCount s pid u' ≤ answerCount (upsertVotes3 s p u nm choices now) pid u' :=
  answerCount_le_upsertLoop p u nm now choices [] s pid u'

theorem mem_pollVoters_iff (s : VState) (pid u' : String) :
    u' ∈ pollVoters s pid ↔ 0 < answerCount s pid u' := by
  unfold pollVoters answerCount
  rw [List.mem_dedup, ← List.countP_eq_length_filter, List.countP_pos_iff]
  constructor
  · intro h
    obtain ⟨r, hr, hru⟩ := List.mem_map.1 h
    obtain ⟨hrs, hrp⟩ := List.mem_filter.1 hr
    refine ⟨r, hrs, ?_⟩
    simp only [decide_eq_true_eq] at hrp
    simp [hrp, hru]
  · rintro ⟨r, hrs, hr⟩
    simp only [Bool.and_eq_true, decide_eq_true_eq] at hr
    exact List.mem_map.2 ⟨r, List.mem_filter.2 ⟨hrs, by simp [hr.1]⟩, hr.2⟩

/-- One `submit` call of the vote ledger: all the inputs of
`upsertVotes3` bundled. -/
structure Submission where
  pollId : String
  userId : String
  userName : Option String
  choices : List RawChoice
  now : Nat
deriving Repr, DecidableEq

/-- Apply a sequence of ledger submissions in order. -/
def applySubmissions : VState → List Submission → VState
  | s, [] => s
  | s, sub :: rest =>
    applySubmissions (upsertVotes3 s sub.pollId sub.userId sub.userName sub.choices sub.now) rest

theorem completedUsers_nodup (s : VState) (pid : String) (n : Nat) :
    (completedUsers s pid n).Nodup :=
  (List.nodup_dedup _).filter _

theorem mem_completedUsers_iff (s : VState) (pid : String) (n : Nat) (u' : String) :
    u' ∈ completedUsers s pid n ↔ 0 < answerCount s pid u' ∧ n ≤ answerCount s pid u' := by
  unfold completedUsers
  rw [List.mem_filter, mem_pollVoters_iff]
  simp

theorem completedUsers_le_upsertVotes3 (s : VState) (p u : String)
    (nm : Option String) (choices : List RawChoice) (now : Nat) (pid : String) (n : Nat) :
    (completedUsers s pid n).length
      ≤ (completedUsers (upsertVotes3 s p u nm choices now) pid n).length := by
  apply List.Subperm.length_le
  apply List.subperm_of_subset (completedUsers_nodup s pid n)
  intro x hx
  rw [mem_completedUsers_iff] at hx ⊢
  exact ⟨Nat.lt_of_lt_of_le hx.1 (answerCount_le_upsertVotes3 s p u nm choices now pid x),
    Nat.le_trans hx.2 (answerCount_le_upsertVotes3 s p u nm choices now pid x)⟩

theorem completedUsers_le_applySubmissions (s : VState) (subs : List Submission)
    (pid : String) (n : Nat) :
    (completedUsers s pid n).length
      ≤ (completedUsers (applySubmissions s subs) pid n).length := by
  induction subs generalizing s with
  | nil => exact Nat.le_refl _
  | cons sub rest ih =>
    exact Nat.le_trans
      (completedUsers_le_upsertVotes3 s sub.pollId sub.userId sub.userName sub.choices sub.now pid n)
      (ih _)

/-- Every stored choice is ternary. -/
def ChoicesValid (s : VState) : Prop :=
  ∀ r ∈ s, r.choice = 0 ∨ r.choice = 1 ∨ r.choice = 2

/-- The primary key of a vote row. -/
def voteKey (r : VoteRow) : String × String × String :=
  (r.pollId, r.optionId, r.userId)

/-- The PRIMARY KEY (poll_id, option_id, user_id) constraint. -/
def KeysNodup (s : VState) : Prop := (s.map voteKey).Nodup

/-- Vote states reachable from the empty table through ledger
submissions. -/
inductive Reachable : VState → Prop where
  | empty : Reachable []
  | submit (p u : String) (nm : Option String) (choices : List RawChoice) (now : Nat)
      {s : VState} : Reachable s → Reachable (upsertVotes3 s p u nm choices now)

theorem choicesValid_upsertOne {s : VState} (h : ChoicesValid s) (p o u : String)
    (nm : Option String) {c : Int} (now : Nat) (hc : c = 0 ∨ c = 1 ∨ c = 2) :
    ChoicesValid (upsertOne s p o u nm c now) := by
  unfold upsertOne
  by_cases ha : s.any (keyMatch p o u) = true
  · rw [if_pos ha]
    intro r hr
    obtain ⟨r0, hr0, hfr⟩ := List.mem_map.1 hr
    by_cases hk : keyMatch p o u r0 = true
    · rw [if_pos hk] at hfr; rw [← hfr]; exact hc
    · rw [if_neg hk] at hfr; rw [← hfr]; exact h r0 hr0
  · rw [if_neg ha]
    intro r hr
    rcases List.mem_append.1 hr with h1 | h2
    · exact h r h1
    · rw [List.mem_singleton.1 h2]; exact hc

theorem keysNodup_upsertOne {s : VState} (h : KeysNodup s) (p o u : String)
    (nm : Option String) (c : Int) (now : Nat) :
    KeysNodup (upsertOne s p o u nm c now) := by
  unfold upsertOne KeysNodup
  by_cases ha : s.any (keyMatch p o u) = true
  · rw [if_pos ha, List.map_map]
    have heq : s.map (voteKey ∘ fun r => if keyMatch p o u r then
        (⟨p, o, u, nm, c, now⟩ : VoteRow) else r) = s.map voteKey := by
      apply List.map_congr_left
      intro r _
      by_cases hk : keyMatch p o u r = true
      · obtain ⟨h1, h2, h3⟩ := (keyMatch_iff p o u r).1 hk
        simp [Function.comp, hk, voteKey, h1, h2, h3]
      · simp [Function.comp, hk]
    rw [heq]; exact h
  · rw [if_neg ha, List.map_append]
    rw [List.nodup_append]
    refine ⟨h, List.nodup_singleton _, ?_⟩
    intro k hk hk1
    rw [List.map_singleton, List.mem_singleton] at hk1
    subst hk1
    obtain ⟨r, hr, hrk⟩ := List.mem_map.1 hk
    simp only [voteKey, Prod.mk.injEq] at hrk
    apply ha
    rw [List.any_eq_true]
    exact ⟨r, hr, (keyMatch_iff p o u r).2 ⟨hrk.1, hrk.2.1, hrk.2.2⟩⟩

theorem invariants_upsertLoop (p u : String) (nm : Option String) (now : Nat) :
    ∀ (choices : List RawChoice) (seen : List String) (s : VState),
    ChoicesValid s → KeysNodup s →
    ChoicesValid (upsertLoop p u nm now choices seen s)
      ∧ KeysNodup (upsertLoop p u nm now choices seen s) := by
  intro choices
  induction choices with
  | nil => intro seen s hv hk; exact ⟨hv, hk⟩
  | cons ch rest ih =>
    intro seen s hv hk
    obtain ⟨coid, cc⟩ := ch
    cases coid with
    | none => simp only [upsertLoop]; exact ih seen s hv hk
    | some oid =>
      cases cc with
      | none => simp only [upsertLoop]; exact ih seen s hv hk
      | some c =>
        by_cases hvc : c = 0 ∨ c = 1 ∨ c = 2
        · by_cases hseen : oid ∈ seen
          · simp only [upsertLoop, if_pos hvc, if_pos hseen]; exact ih seen s hv hk
          · simp only [upsertLoop, if_pos hvc, if_neg hseen]
            exact ih (oid :: seen) _
              (choicesValid_upsertOne hv p oid u nm now hvc)
              (keysNodup_upsertOne hk p oid u nm c now)
        · simp only [upsertLoop, if_neg hvc]; exact ih seen s hv hk

theorem reachable_invariants {s : VState} (h : Reachable s) :
    ChoicesValid s ∧ KeysNodup s := by
  induction h with
  | empty => exact ⟨fun r hr => absurd hr (List.not_mem_nil r), List.nodup_nil⟩
  | submit p u nm choices now _ ih =>
    exact invariants_upsertLoop p u nm now choices [] _ ih.1 ih.2

/-- The number of distinct users holding a vote row for an option. -/
def distinctVoterCount (s : VState) (o : OptionRow) : Nat :=
  (((optionRows s o).map (fun r => r.userId)).dedup).length

theorem count_sum_eq_length {l : List VoteRow}
    (h : ∀ r ∈ l, r.choice = 0 ∨ r.choice = 1 ∨ r.choice = 2) :
    (l.filter (fun r => r.choice = 2)).length + (l.filter (fun r => r.choice = 1)).length
      + (l.filter (fun r => r.choice = 0)).length = l.length := by
  induction l with
  | nil => rfl
  | cons r rest ih =>
    have hr := h r (List.mem_cons_self r rest)
    have hrest := ih (fun x hx => h x (List.mem_cons_of_mem r hx))
    rcases hr with hc | hc | hc <;>
      simp [List.filter_cons, hc] <;> omega

theorem userIds_nodup {s : VState} (hk : KeysNodup s) (o : OptionRow) :
    ((optionRows s o).map (fun r => r.userId)).Nodup := by
  have h1 : ((optionRows s o).map voteKey).Nodup :=
    ((List.filter_sublist s).map voteKey).nodup hk
  have h2 : (optionRows s o).map voteKey
      = ((optionRows s o).map (fun r => r.userId)).map (fun v => (o.pollId, o.id, v)) := by
    rw [List.map_map]
    apply List.map_congr_left
    intro r hr
    have hf := (List.mem_filter.1 hr).2
    simp only [Bool.and_eq_true, decide_eq_true_eq] at hf
    simp [voteKey, Function.comp, hf.1, hf.2]
  rw [h2] at h1
  exact h1.of_map _

theorem tally_conservation_of {s : VState} (hv : ChoicesValid s) (hk : KeysNodup s)
    (o : OptionRow) :
    (tallyFor s o).yesCount + (tallyFor s o).maybeCount + (tallyFor s o).noCount
      = distinctVoterCount s o := by
  unfold tallyFor distinctVoterCount
  rw [List.dedup_eq_self.2 (userIds_nodup hk o), List.length_map]
  exact count_sum_eq_length (fun r hr => hv r (List.mem_filter.1 hr).1)

/-- A vote row stripped to the fields the tally reads (the bookkeeping
columns user_name and updated_at dropped). -/
structure SRow where
  pollId : String
  optionId : String
  userId : String
  choice : Int
deriving Repr, DecidableEq

/-- Strip a row to its tally-relevant fields. -/
def strip (r : VoteRow) : SRow := ⟨r.pollId, r.optionId, r.userId, r.choice⟩

/-- The stripped view of a vote state. -/
def stripS (s : VState) : List SRow := s.map strip

/-- Key match on stripped rows. -/
def skeyMatch (p o u : String) (r : SRow) : Bool :=
  r.pollId = p && r.optionId = o && r.userId = u

/-- The stripped image of `upsertOne`. -/
def sUp (t : List SRow) (p o u : String) (c : Int) : List SRow :=
  if t.any (skeyMatch p o u) then
    t.map (fun r => if skeyMatch p o u r then ⟨p, o, u, c⟩ else r)
  else t ++ [⟨p, o, u, c⟩]

/-- The stripped image of `applyBatch`. -/
def sApply (p u : String) : List SRow → List (String × Int) → List SRow
  | t, [] => t
  | t, e :: rest => sApply p u (sUp t p e.1 u e.2) rest

theorem skeyMatch_strip (p o u : String) (r : VoteRow) :
    skeyMatch p o u (strip r) = keyMatch p o u r := rfl

theorem skeyMatch_iff (p o u : String) (r : SRow) :
    skeyMatch p o u r = true ↔ r.pollId = p ∧ r.optionId = o ∧ r.userId = u := by
  simp [skeyMatch, and_assoc]

theorem skeyMatch_self (p o u : String) (c : Int) :
    skeyMatch p o u (⟨p, o, u, c⟩ : SRow) = true := by
  simp [skeyMatch]

theorem any_strip (s : VState) (p o u : String) :
    (s.map strip).any (skeyMatch p o u) = s.any (keyMatch p o u) := by
  induction s with
  | nil => rfl
  | cons r rest ih => simp only [List.map_cons, List.any_cons, ih, skeyMatch_strip]

theorem stripS_upsertOne (s : VState) (p o u : String) (nm : Option String)
    (c : Int) (now : Nat) :
    stripS (upsertOne s p o u nm c now) = sUp (stripS s) p o u c := by
  unfold upsertOne sUp stripS
  rw [any_strip]
  by_cases h : s.any (keyMatch p o u) = true
  · rw [if_pos h, if_pos h, List.map_map, List.map_map]
    apply List.map_congr_left
    intro r _
    simp only [Function.comp_apply]
    by_cases hk : keyMatch p o u r = true
    · rw [if_pos hk, if_pos (by rw [skeyMatch_strip]; exact hk)]; rfl
    · rw [if_neg hk, if_neg (by rw [skeyMatch_strip]; exact hk)]
  · rw [if_neg h, if_neg h, List.map_append]; rfl

theorem stripS_applyBatch (p u : String) (nm : Option String) (now : Nat) :
    ∀ (es : List (String × Int)) (s : VState),
    stripS (applyBatch p u nm now s es) = sApply p u (stripS s) es := by
  intro es
  induction es with
  | nil => intro s; rfl
  | cons e rest ih =>
    intro s
    rw [applyBatch, sApply, ih, stripS_upsertOne]

/-- Every row carrying the key equals the canonical row. -/
def AllAt (t : List SRow) (p o u : String) (c : Int) : Prop :=
  ∀ r ∈ t, skeyMatch p o u r = true → r = ⟨p, o, u, c⟩

/-- Some row carries the key. -/
def HasKey (t : List SRow) (p o u : String) : Prop :=
  t.any (skeyMatch p o u) = true

theorem sUp_eq_self {t : List SRow} {p o u : String} {c : Int}
    (hall : AllAt t p o u c) (hh : HasKey t p o u) : sUp t p o u c = t := by
  unfold HasKey at hh
  unfold sUp
  rw [if_pos hh]
  have hpt : ∀ r ∈ t, (if skeyMatch p o u r then (⟨p, o, u, c⟩ : SRow) else r) = id r := by
    intro r hr
    by_cases hk : skeyMatch p o u r = true
    · rw [if_pos hk, ← hall r hr hk]; rfl
    · rw [if_neg hk]; rfl
  rw [List.map_congr_left hpt, List.map_id]

theorem sUp_AllAt (t : List SRow) (p o u : String) (c : Int) :
    AllAt (sUp t p o u c) p o u c := by
  unfold sUp
  by_cases h : t.any (skeyMatch p o u) = true
  · rw [if_pos h]
    intro r hr hk
    obtain ⟨r0, hr0, hfr⟩ := List.mem_map.1 hr
    by_cases hk0 : skeyMatch p o u r0 = true
    · rw [if_pos hk0] at hfr; exact hfr.symm
    · rw [if_neg hk0] at hfr; rw [← hfr] at hk; exact absurd hk hk0
  · rw [if_neg h]
    intro r hr hk
    rcases List.mem_append.1 hr with h1 | h2
    · exact absurd (List.any_eq_true.2 ⟨r, h1, hk⟩) h
    · exact List.mem_singleton.1 h2

theorem sUp_HasKey (t : List SRow) (p o u : String) (c : Int) :
    HasKey (sUp t p o u c) p o u := by
  unfold sUp HasKey
  by_cases h : t.any (skeyMatch p o u) = true
  · rw [if_pos h, List.any_map]
    obtain ⟨r, hr, hk⟩ := List.any_eq_true.1 h
    refine List.any_eq_true.2 ⟨r, hr, ?_⟩
    simp [Function.comp, hk, skeyMatch_self]
  · rw [if_neg h, List.any_append]
    simp [skeyMatch_self]

theorem AllAt_sUp_ne {t : List SRow} {p o u : String} {c : Int} {o' : String} {c' : Int}
    (ho : o' ≠ o) (hall : AllAt t p o u c) : AllAt (sUp t p o' u c') p o u c := by
  unfold sUp
  by_cases h : t.any (skeyMatch p o' u) = true
  · rw [if_pos h]
    intro r hr hk
    obtain ⟨r0, hr0, hfr⟩ := List.mem_map.1 hr
    by_cases hk0 : skeyMatch p o' u r0 = true
    · rw [if_pos hk0] at hfr
      rw [← hfr] at hk
      obtain ⟨_, h2, _⟩ := (skeyMatch_iff p o u _).1 hk
      exact absurd h2 ho
    · rw [if_neg hk0] at hfr
      rw [← hfr] at hk ⊢
      exact hall r0 hr0 hk
  · rw [if_neg h]
    intro r hr hk
    rcases List.mem_append.1 hr with h1 | h2
    · exact hall r h1 hk
    · rw [List.mem_singleton.1 h2] at hk
      obtain ⟨_, h2', _⟩ := (skeyMatch_iff p o u _).1 hk
      exact absurd h2' ho

theorem HasKey_sUp_ne {t : List SRow} {p o u o' : String} {c' : Int}
    (ho : o' ≠ o) (hh : HasKey t p o u) : HasKey (sUp t p o' u c') p o u := by
  unfold sUp HasKey at *
  by_cases h : t.any (skeyMatch p o' u) = true
  · rw [if_pos h, List.any_map]
    obtain ⟨r, hr, hk⟩ := List.any_eq_true.1 hh
    refine List.any_eq_true.2 ⟨r, hr, ?_⟩
    have hk0 : skeyMatch p o' u r = false := by
      apply Bool.eq_false_iff.2
      intro hcontra
      obtain ⟨_, hx, _⟩ := (skeyMatch_iff p o' u r).1 hcontra
      obtain ⟨_, hy, _⟩ := (skeyMatch_iff p o u r).1 hk
      exact ho (hx.symm.trans hy)
    simp [Function.comp, hk0, hk]
  · rw [if_neg h, List.any_append]
    simp [hh]

theorem sApply_keeps_key {p u o : String} {c : Int} :
    ∀ (es : List (String × Int)) (t : List SRow),
    o ∉ es.map Prod.fst → AllAt t p o u c → HasKey t p o u →
    AllAt (sApply p u t es) p o u c ∧ HasKey (sApply p u t es) p o u := by
  intro es
  induction es with
  | nil => intro t _ h1 h2; exact ⟨h1, h2⟩
  | cons e rest ih =>
    intro t hno h1 h2
    have ho : e.1 ≠ o := by
      intro hEq
      apply hno
      rw [List.map_cons, hEq]
      exact List.mem_cons_self _ _
    have hno' : o ∉ rest.map Prod.fst := by
      intro hc
      apply hno
      rw [List.map_cons]
      exact List.mem_cons_of_mem _ hc
    rw [sApply]
    exact ih _ hno' (AllAt_sUp_ne ho h1) (HasKey_sUp_ne ho h2)

theorem sApply_idem (p u : String) :
    ∀ (es : List (String × Int)) (t : List SRow),
    (es.map Prod.fst).Nodup →
    sApply p u (sApply p u t es) es = sApply p u t es := by
  intro es
  induction es with
  | nil => intro t _; rfl
  | cons e rest ih =>
    intro t hnd
    rw [List.map_cons, List.nodup_cons] at hnd
    obtain ⟨hno, hnd'⟩ := hnd
    have hX := sApply_keeps_key rest (sUp t p e.1 u e.2) hno
      (sUp_AllAt t p e.1 u e.2) (sUp_HasKey t p e.1 u e.2)
    calc sApply p u (sApply p u t (e :: rest)) (e :: rest)
        = sApply p u (sUp (sApply p u (sUp t p e.1 u e.2) rest) p e.1 u e.2) rest := by
          simp only [sApply]
      _ = sApply p u (sApply p u (sUp t p e.1 u e.2) rest) rest := by
          rw [sUp_eq_self hX.1 hX.2]
      _ = sApply p u (sUp t p e.1 u e.2) rest := ih _ hnd'
      _ = sApply p u t (e :: rest) := by simp only [sApply]

theorem dedupFirst_fst_nodup :
    ∀ (l : List (String × Int)) (seen : List String),
    ((dedupFirst l seen).map Prod.fst).Nodup
      ∧ ∀ x ∈ (dedupFirst l seen).map Prod.fst, x ∉ seen := by
  intro l
  induction l with
  | nil => intro seen; exact ⟨List.nodup_nil, by simp [dedupFirst]⟩
  | cons e rest ih =>
    intro seen
    obtain ⟨oid, c⟩ := e
    by_cases h : oid ∈ seen
    · simp only [dedupFirst, if_pos h]
      exact ih seen
    · simp only [dedupFirst, if_neg h]
      obtain ⟨h1, h2⟩ := ih (oid :: seen)
      refine ⟨?_, ?_⟩
      · rw [List.map_cons, List.nodup_cons]
        exact ⟨fun hc => (h2 _ hc) (List.mem_cons_self _ _), h1⟩
      · intro x hx
        rw [List.map_cons, List.mem_cons] at hx
        rcases hx with hx | hx
        · rw [hx]; exact h
        · exact fun hc => (h2 x hx) (List.mem_cons_of_mem _ hc)

theorem canonicalBatch_fst_nodup (choices : List RawChoice) :
    ((canonicalBatch choices).map Prod.fst).Nodup :=
  (dedupFirst_fst_nodup (validEntries choices) []).1

theorem filter_length_eq_of_strip (c : Int) (o : OptionRow) (s : VState) :
    ((optionRows s o).filter (fun r => r.choice = c)).length
      = (stripS s).countP
          (fun r => decide (r.choice = c) && (r.optionId = o.id && r.pollId = o.pollId)) := by
  unfold optionRows stripS
  rw [← List.countP_eq_length_filter, List.countP_filter, List.countP_map]
  apply List.countP_congr
  intro r _
  rfl

theorem tallyFor_congr_strip {s1 s2 : VState} (h : stripS s1 = stripS s2)
    (o : OptionRow) : tallyFor s1 o = tallyFor s2 o := by
  unfold tallyFor
  rw [filter_length_eq_of_strip 2, filter_length_eq_of_strip 1, filter_length_eq_of_strip 0,
    filter_length_eq_of_strip 2, filter_length_eq_of_strip 1, filter_length_eq_of_strip 0, h]

theorem find?_map_replace (p o u : String) (nm : Option String) (c : Int) (now : Nat) :
    ∀ s : VState, s.any (keyMatch p o u) = true →
    ((s.map (fun r => if keyMatch p o u r then (⟨p, o, u, nm, c, now⟩ : VoteRow) else r)).find?
        (fun r => r.pollId = p && r.userId = u && r.optionId = o))
      = some ⟨p, o, u, nm, c, now⟩ := by
  intro s
  induction s with
  | nil => intro h; cases h
  | cons r rest ih =>
    intro h
    rw [List.map_cons]
    by_cases hk : keyMatch p o u r = true
    · rw [if_pos hk]
      exact List.find?_cons_of_pos _ (by simp)
    · rw [if_neg hk]
      rw [List.find?_cons_of_neg _ (by
        intro hc
        apply hk
        rw [keyMatch, ← Bool.and_right_comm]
        exact hc)]
      apply ih
      rw [List.any_cons, Bool.or_eq_true] at h
      rcases h with h | h
      · exact absurd h hk
      · exact h

theorem find?_append_new (p o u : String) (nm : Option String) (c : Int) (now : Nat) :
    ∀ s : VState, s.any (keyMatch p o u) = false →
    ((s ++ [(⟨p, o, u, nm, c, now⟩ : VoteRow)]).find?
        (fun r => r.pollId = p && r.userId = u && r.optionId = o))
      = some ⟨p, o, u, nm, c, now⟩ := by
  intro s
  induction s with
  | nil => intro _; exact List.find?_cons_of_pos _ (by simp)
  | cons r rest ih =>
    intro h
    rw [List.any_cons, Bool.or_eq_false_iff] at h
    rw [List.cons_append]
    rw [List.find?_cons_of_neg _ (by
      intro hc
      rw [keyMatch, ← Bool.and_right_comm] at h
      rw [h.1] at hc
      cases hc)]
    exact ih h.2

theorem find?_upsertOne (s : VState) (p o u : String) (nm : Option String)
    (c : Int) (now : Nat) :
    ((upsertOne s p o u nm c now).find?
        (fun r => r.pollId = p && r.userId = u && r.optionId = o))
      = some ⟨p, o, u, nm, c, now⟩ := by
  unfold upsertOne
  by_cases h : s.any (keyMatch p o u) = true
  · rw [if_pos h]; exact find?_map_replace p o u nm c now s h
  · rw [if_neg h]
    exact find?_append_new p o u nm c now s (Bool.not_eq_true _ ▸ h)

theorem getUserChoice3_after_single (db : DB) (pid uid oid : String)
    (nm : Option String) (c : Int) (now : Nat) (hc : c = 0 ∨ c = 1 ∨ c = 2) :
    getUserChoice3
      { db with votes3 := upsertVotes3 db.votes3 pid uid nm [⟨some oid, some c⟩] now }
      pid uid oid = some ⟨pid, oid, uid, nm, c, now⟩ := by
  unfold getUserChoice3
  simp only
  rw [upsertVotes3_eq_applyBatch]
  have hcb : canonicalBatch [⟨some oid, some c⟩] = [(oid, c)] := by
    rcases hc with h | h | h <;> subst h <;> rfl
  rw [hcb]
  simp only [applyBatch]
  exact find?_upsertOne db.votes3 pid oid uid nm c now


/-! Claim theorems. -/

/-- Claim C1, counterexample: with the headcount unavailable and the
member-id enumeration returning the non-empty list [u1,u2,u3], two
complete voters make the quorum decision true through the
voter-self-consistency fallback although strategy 2 alone is false —
so the fallback is not reserved for the case where both membership
queries are unavailable. -/
theorem quorum_fallback_overrides_strategy2 :
    quorumDecision [⟨"p", "o1", "u1", none, 2, 0⟩, ⟨"p", "o1", "u2", none, 1, 0⟩]
        "p" 1 none ["u1", "u2", "u3"] "bot" = true
    ∧ strategy2 [⟨"p", "o1", "u1", none, 2, 0⟩, ⟨"p", "o1", "u2", none, 1, 0⟩]
        "p" 1 ["u1", "u2", "u3"] "bot" = false
    ∧ (["u1", "u2", "u3"] : List String) ≠ [] := by
  refine ⟨by decide, by decide, by decide⟩

/-- Claim C1, amended: the detector's decision is a first-success
cascade in which a positive official headcount decides alone, and
otherwise — member-id enumeration available or not — the decision is
the disjunction of strategy 2 and the voter-self-consistency fallback. -/
theorem quorumDecision_eq_cascade (s : VState) (pid : String) (n : Nat)
    (mc : Option Int) (ids : List String) (bot : String) :
    quorumDecision s pid n mc ids bot = quorumCascadeSpec s pid n mc ids bot := by
  unfold quorumDecision quorumCascadeSpec quorumFallback
  cases mc with
  | none =>
    dsimp only
    cases h2 : strategy2 s pid n ids bot <;> cases h3 : strategy3 s pid n <;> simp [h2, h3]
  | some m =>
    dsimp only
    by_cases hm : 0 < m
    · rw [if_pos hm, if_pos hm]
    · rw [if_neg hm, if_neg hm]
      cases h2 : strategy2 s pid n ids bot <;> cases h3 : strategy3 s pid n <;> simp [h2, h3]

/-- Claim C2, counterexample: createPoll with an empty options list does
not fail — it commits the poll row (with zero option rows) and getPoll
finds it. -/
theorem createPoll_empty_options_commits_poll_row :
    getPoll (createPoll ⟨[], [], []⟩ "p1" "g" "t" 5 []) "p1"
      = some (⟨"p1", "g", "t", 5, "open", none, none⟩, []) := by decide

/-- Claim C2, amended: for every options list (empty included),
createPoll succeeds and commits the poll row together with exactly one
option row per entry; no validation error exists. -/
theorem createPoll_commits_poll_and_options (db : DB) (pollId groupId title : String)
    (now : Nat) (opts : List (String × NewOption))
    (hfresh : db.polls.find? (fun p => p.id = pollId) = none)
    (hopts : ∀ o ∈ db.options, o.pollId ≠ pollId) :
    getPoll (createPoll db pollId groupId title now opts) pollId
      = some (⟨pollId, groupId, title, now, "open", none, none⟩,
          opts.map (fun oo => ⟨oo.1, pollId, oo.2.label, oo.2.date⟩)) := by
  unfold getPoll createPoll
  simp only
  rw [List.find?_append, hfresh, Option.none_or,
    List.find?_cons_of_pos _ (by simp)]
  simp only
  congr 1
  congr 1
  rw [List.filter_append,
    List.filter_eq_nil_iff.2 (fun o ho hp => hopts o ho (by simpa using hp)),
    List.nil_append]
  apply List.filter_eq_self.2
  intro o ho
  obtain ⟨oo, _, hoo⟩ := List.mem_map.1 ho
  rw [← hoo]
  simp

/-- Claim C2 witness: creating a fresh poll with one option commits
both rows. -/
theorem createPoll_commits_witness :
    getPoll (createPoll ⟨[], [], []⟩ "p1" "g" "t" 5 [("o1", ⟨"L", some "2025-01-02"⟩)]) "p1"
      = some (⟨"p1", "g", "t", 5, "open", none, none⟩,
          [⟨"o1", "p1", "L", some "2025-01-02"⟩]) :=
  createPoll_commits_poll_and_options ⟨[], [], []⟩ "p1" "g" "t" 5
    [("o1", ⟨"L", some "2025-01-02"⟩)] (by decide) (by decide)

/-- Claim C3 (code bug): finalizing option o1 (date 2025-01-02) of an
open poll sets the status to 'closed' but leaves the finalized_date
column untouched (none) — setPollFinalizedDate is never called by the
finalize handler, although db.js defines it and the polls table carries
the column for it. -/
theorem finalize_does_not_record_date :
    (finalizePostback ⟨[⟨"p1", "g", "t", 0, "open", none, none⟩],
        [⟨"o1", "p1", "L", some "2025-01-02"⟩], []⟩ "p1" "o1").1.polls
      = [⟨"p1", "g", "t", 0, "closed", none, none⟩]
    ∧ (none : Option String) ≠ some "2025-01-02" := by
  refine ⟨by decide, by decide⟩

/-- Claim C4, counterexample: a 'no' answer to the close prompt on an
open poll leaves the status at 'open', not at 'closing'. -/
theorem close_no_leaves_status_open :
    (getPoll (closePostback ⟨[⟨"p1", "g", "t", 0, "open", none, none⟩],
        [⟨"o1", "p1", "L", none⟩], []⟩ "p1" "no").1 "p1").map (fun po => po.1.status)
      = some "open"
    ∧ ("open" : String) ≠ "closing" := by
  refine ⟨by decide, by decide⟩

/-- Claim C4, amended: on a poll that is in neither 'closing' nor
'closed', a 'no' answer changes nothing in the store (the status stays
whatever it was, in particular 'open' stays 'open') and only an
informational reply is sent; the ledger afterwards still records any
valid vote submission for the poll. -/
theorem close_no_keeps_state_and_votes (db : DB) (pid : String)
    (p : PollRow) (opts : List OptionRow)
    (hfind : getPoll db pid = some (p, opts))
    (h1 : p.status ≠ "closing") (h2 : p.status ≠ "closed") :
    closePostback db pid "no"
      = (db, [Eff.reply [Msg.text "了解しました。引き続き投票を受け付けます。"]])
    ∧ ∀ (uid : String) (nm : Option String) (oid : String) (c : Int) (now : Nat),
        c = 0 ∨ c = 1 ∨ c = 2 →
        getUserChoice3
          { (closePostback db pid "no").1 with votes3 :=
              (upsertVotes3 (closePostback db pid "no").1.votes3 pid uid nm
                [⟨some oid, some c⟩] now) }
          pid uid oid = some ⟨pid, oid, uid, nm, c, now⟩ := by
  have hmain : closePostback db pid "no"
      = (db, [Eff.reply [Msg.text "了解しました。引き続き投票を受け付けます。"]]) := by
    unfold closePostback
    rw [hfind]
    dsimp only
    rw [if_neg (by simp [h1, h2]), if_neg (by decide)]
  refine ⟨hmain, ?_⟩
  intro uid nm oid c now hc
  rw [hmain]
  exact getUserChoice3_after_single db pid uid oid nm c now hc

/-- Claim C4 witness: concrete open poll, 'no' answer, then a maybe
vote is still recorded. -/
theorem close_no_witness :
    closePostback ⟨[⟨"p1", "g", "t", 0, "open", none, none⟩], [⟨"o1", "p1", "L", none⟩], []⟩
        "p1" "no"
      = (⟨[⟨"p1", "g", "t", 0, "open", none, none⟩], [⟨"o1", "p1", "L", none⟩], []⟩,
         [Eff.reply [Msg.text "了解しました。引き続き投票を受け付けます。"]])
    ∧ getUserChoice3
        { (closePostback ⟨[⟨"p1", "g", "t", 0, "open", none, none⟩],
            [⟨"o1", "p1", "L", none⟩], []⟩ "p1" "no").1 with votes3 :=
            (upsertVotes3 (closePostback ⟨[⟨"p1", "g", "t", 0, "open", none, none⟩],
              [⟨"o1", "p1", "L", none⟩], []⟩ "p1" "no").1.votes3 "p1" "u1" (some "N")
              [⟨some "o1", some 1⟩] 9) }
        "p1" "u1" "o1" = some ⟨"p1", "o1", "u1", some "N", 1, 9⟩ := by
  have h := close_no_keeps_state_and_votes
    ⟨[⟨"p1", "g", "t", 0, "open", none, none⟩], [⟨"o1", "p1", "L", none⟩], []⟩
    "p1" ⟨"p1", "g", "t", 0, "open", none, none⟩ [⟨"o1", "p1", "L", none⟩]
    (by decide) (by decide) (by decide)
  exact ⟨h.1, h.2 "u1" (some "N") "o1" 1 9 (by decide)⟩

/-- Claim C5: a submit batch upserts exactly the canonical entries —
valid ones (string optionId, numeric choice 0, 1 or 2), first
occurrence of each repeated optionId — as one transaction, and a batch
whose canonical form is empty leaves the vote state unchanged without
raising an error. -/
theorem submit_upserts_canonical_batch (s : VState) (p u : String)
    (nm : Option String) (choices : List RawChoice) (now : Nat) :
    upsertVotes3 s p u nm choices now = applyBatch p u nm now s (canonicalBatch choices)
    ∧ (canonicalBatch choices = [] → upsertVotes3 s p u nm choices now = s) := by
  refine ⟨upsertVotes3_eq_applyBatch s p u nm choices now, ?_⟩
  intro h
  rw [upsertVotes3_eq_applyBatch s p u nm choices now, h]
  rfl

/-- Claim C5 witness: a batch with a malformed optionId, an
out-of-range choice and a NaN choice has an empty canonical form and is
a no-op on a non-empty state. -/
theorem submit_canonical_witness :
    canonicalBatch [⟨none, some 2⟩, ⟨some "a", some 7⟩, ⟨some "b", none⟩] = []
    ∧ upsertVotes3 [⟨"p", "a", "u", none, 2, 0⟩] "p" "u" none
        [⟨none, some 2⟩, ⟨some "a", some 7⟩, ⟨some "b", none⟩] 9
      = [⟨"p", "a", "u", none, 2, 0⟩] :=
  ⟨by decide,
   (submit_upserts_canonical_batch [⟨"p", "a", "u", none, 2, 0⟩] "p" "u" none
      [⟨none, some 2⟩, ⟨some "a", some 7⟩, ⟨some "b", none⟩] 9).2 (by decide)⟩

/-- Claim C6: in every vote state reachable by ledger submissions, for
every option the tally satisfies yes + maybe + no = the number of
distinct users holding a vote row for that option. -/
theorem tally_conservation {s : VState} (h : Reachable s) (o : OptionRow) :
    (tallyFor s o).yesCount + (tallyFor s o).maybeCount + (tallyFor s o).noCount
      = distinctVoterCount s o :=
  tally_conservation_of (reachable_invariants h).1 (reachable_invariants h).2 o

/-- Claim C6 witness: the conservation equation at a state reached by
two submissions. -/
theorem tally_conservation_witness :
    (tallyFor (upsertVotes3 (upsertVotes3 [] "p" "u1" (some "A")
          [⟨some "o1", some 2⟩] 0) "p" "u2" (some "B") [⟨some "o1", some 0⟩] 1)
        ⟨"o1", "p", "L", none⟩).yesCount
      + (tallyFor (upsertVotes3 (upsertVotes3 [] "p" "u1" (some "A")
          [⟨some "o1", some 2⟩] 0) "p" "u2" (some "B") [⟨some "o1", some 0⟩] 1)
        ⟨"o1", "p", "L", none⟩).maybeCount
      + (tallyFor (upsertVotes3 (upsertVotes3 [] "p" "u1" (some "A")
          [⟨some "o1", some 2⟩] 0) "p" "u2" (some "B") [⟨some "o1", some 0⟩] 1)
        ⟨"o1", "p", "L", none⟩).noCount
      = distinctVoterCount (upsertVotes3 (upsertVotes3 [] "p" "u1" (some "A")
          [⟨some "o1", some 2⟩] 0) "p" "u2" (some "B") [⟨some "o1", some 0⟩] 1)
        ⟨"o1", "p", "L", none⟩ :=
  tally_conservation
    (Reachable.submit "p" "u2" (some "B") [⟨some "o1", some 0⟩] 1
      (Reachable.submit "p" "u1" (some "A") [⟨some "o1", some 2⟩] 0 Reachable.empty))
    ⟨"o1", "p", "L", none⟩

/-- Claim C7: under strategy 1 (official headcount m > 0), once the
quorum decision is true it stays true after any further sequence of
ledger submissions — submissions only add or overwrite vote rows, so
the set of complete users never shrinks. -/
theorem quorum_monotone_strategy1 (s : VState) (pid : String) (n : Nat) (m : Int)
    (ids : List String) (bot : String) (hm : 0 < m)
    (hq : quorumDecision s pid n (some m) ids bot = true)
    (subs : List Submission) :
    quorumDecision (applySubmissions s subs) pid n (some m) ids bot = true := by
  simp only [quorumDecision, if_pos hm, decide_eq_true_eq] at hq ⊢
  calc m ≤ ((completedUsers s pid n).length : Int) := hq
    _ ≤ _ := Int.ofNat_le.mpr (completedUsers_le_applySubmissions s subs pid n)

/-- Claim C7 witness: quorum reached with m = 1 stays true after a
further incomplete submission by another user. -/
theorem quorum_monotone_witness :
    (0 : Int) < 1
    ∧ quorumDecision [⟨"p", "o1", "u1", none, 2, 0⟩] "p" 1 (some 1) [] "b" = true
    ∧ quorumDecision
        (applySubmissions [⟨"p", "o1", "u1", none, 2, 0⟩]
          [⟨"p", "u2", none, [⟨some "o1", some 9⟩], 5⟩])
        "p" 1 (some 1) [] "b" = true :=
  ⟨by decide, by decide,
   quorum_monotone_strategy1 [⟨"p", "o1", "u1", none, 2, 0⟩] "p" 1 1 [] "b"
     (by decide) (by decide) [⟨"p", "u2", none, [⟨some "o1", some 9⟩], 5⟩]⟩

/-- Claim C8: submitting the same batch twice (at any two times) yields
exactly the per-option tally of submitting it once. -/
theorem submit_idempotent_tally (db : DB) (pid uid : String) (nm : Option String)
    (choices : List RawChoice) (now1 now2 : Nat) :
    getPollTally3 { db with votes3 := (upsertVotes3
        (upsertVotes3 db.votes3 pid uid nm choices now1) pid uid nm choices now2) } pid
      = getPollTally3 { db with votes3 := (upsertVotes3 db.votes3 pid uid nm choices now1) } pid := by
  unfold getPollTally3
  apply List.map_congr_left
  intro o _
  apply tallyFor_congr_strip
  rw [upsertVotes3_eq_applyBatch db.votes3 pid uid nm choices now1,
    upsertVotes3_eq_applyBatch _ pid uid nm choices now2,
    stripS_applyBatch, stripS_applyBatch]
  exact sApply_idem pid uid (canonicalBatch choices) _ (canonicalBatch_fst_nodup choices)

/-- Claim C9, counterexample: a known poll in status 'closed' whose
deadline (5) is earlier than now (10) is rejected as poll_closed, not
as deadline_passed — the status guard fires first, so the claim's
universal "every known poll with a past deadline gets the
deadline-passed rejection" fails on non-open polls. -/
theorem closed_poll_past_deadline_rejected_as_closed :
    (postVotes3 ⟨[⟨"p1", "g", "t", 0, "closed", some 5, none⟩],
        [⟨"o1", "p1", "L", none⟩], []⟩ "p1" "u" none [⟨some "o1", some 2⟩] 10).1
      = ApiResp.forbidden "poll_closed"
    ∧ ApiResp.forbidden "poll_closed" ≠ ApiResp.forbidden "deadline_passed" := by
  refine ⟨by decide, by decide⟩

/-- Claim C9, amended: unknown poll → 404 and no mutation; known open
poll with a truthy deadline strictly earlier than now → 403
deadline_passed with the store (hence the tally) unchanged; known open
poll within its deadline (or without one) → the batch is recorded and
200 returns the updated tally. -/
theorem postVotes3_responses (db : DB) (pid uid : String) (nm : Option String)
    (choices : List RawChoice) (now : Nat) :
    (getPoll db pid = none →
      postVotes3 db pid uid nm choices now = (ApiResp.notFound, db)
      ∧ ApiResp.notFound.statusCode = 404)
    ∧ (∀ p opts, getPoll db pid = some (p, opts) → p.status = "open" →
        (∃ d, p.deadline = some d ∧ d ≠ 0 ∧ d < now) →
        postVotes3 db pid uid nm choices now = (ApiResp.forbidden "deadline_passed", db)
        ∧ (ApiResp.forbidden "deadline_passed").statusCode = 403
        ∧ getPollTally3 (postVotes3 db pid uid nm choices now).2 pid
            = getPollTally3 db pid)
    ∧ (∀ p opts, getPoll db pid = some (p, opts) → p.status = "open" →
        (∀ d, p.deadline = some d → d ≠ 0 → now ≤ d) →
        postVotes3 db pid uid nm choices now
          = (ApiResp.ok (getPollTally3
                { db with votes3 := (upsertVotes3 db.votes3 pid uid nm choices now) } pid),
             { db with votes3 := (upsertVotes3 db.votes3 pid uid nm choices now) })) := by
  refine ⟨?_, ?_, ?_⟩
  · intro h
    unfold postVotes3
    rw [h]
    exact ⟨rfl, rfl⟩
  · intro p opts h hopen hdl
    obtain ⟨d, hd, hd0, hlt⟩ := hdl
    have heq : postVotes3 db pid uid nm choices now
        = (ApiResp.forbidden "deadline_passed", db) := by
      unfold postVotes3
      rw [h]
      dsimp only
      rw [if_neg (by simp [hopen]), hd]
      rw [if_pos (by simp [hd0, hlt])]
    exact ⟨heq, rfl, by rw [heq]⟩
  · intro p opts h hopen hdl
    unfold postVotes3
    rw [h]
    dsimp only
    rw [if_neg (by simp [hopen])]
    have hcond : (match p.deadline with
        | some d => d ≠ 0 && decide (d < now)
        | none => false) = false := by
      cases hdd : p.deadline with
      | none => rfl
      | some d =>
        dsimp only
        by_cases h0 : d = 0
        · simp [h0]
        · simp [h0, Nat.not_lt.2 (hdl d hdd h0)]
    rw [hcond]
    simp only [Bool.false_eq_true, if_false]

/-- Claim C9 witness: the three response shapes at concrete inputs —
unknown poll, open poll past deadline, open poll within deadline. -/
theorem postVotes3_responses_witness :
    (postVotes3 ⟨[], [], []⟩ "p1" "u" none [] 3 = (ApiResp.notFound, ⟨[], [], []⟩)
      ∧ ApiResp.notFound.statusCode = 404)
    ∧ (postVotes3 ⟨[⟨"p1", "g", "t", 0, "open", some 5, none⟩], [⟨"o1", "p1", "L", none⟩], []⟩
          "p1" "u" none [⟨some "o1", some 2⟩] 10
        = (ApiResp.forbidden "deadline_passed",
           ⟨[⟨"p1", "g", "t", 0, "open", some 5, none⟩], [⟨"o1", "p1", "L", none⟩], []⟩))
    ∧ (postVotes3 ⟨[⟨"p1", "g", "t", 0, "open", some 99, none⟩], [⟨"o1", "p1", "L", none⟩], []⟩
          "p1" "u" (some "N") [⟨some "o1", some 2⟩] 10
        = (ApiResp.ok (getPollTally3
              ⟨[⟨"p1", "g", "t", 0, "open", some 99, none⟩], [⟨"o1", "p1", "L", none⟩],
                [⟨"p1", "o1", "u", some "N", 2, 10⟩]⟩ "p1"),
           ⟨[⟨"p1", "g", "t", 0, "open", some 99, none⟩], [⟨"o1", "p1", "L", none⟩],
             [⟨"p1", "o1", "u", some "N", 2, 10⟩]⟩)) := by
  refine ⟨(postVotes3_responses ⟨[], [], []⟩ "p1" "u" none [] 3).1 (by decide), ?_, ?_⟩
  · exact ((postVotes3_responses _ "p1" "u" none [⟨some "o1", some 2⟩] 10).2.1
      ⟨"p1", "g", "t", 0, "open", some 5, none⟩ [⟨"o1", "p1", "L", none⟩]
      (by decide) (by decide) ⟨5, by decide, by decide, by decide⟩).1
  · have h := (postVotes3_responses
        ⟨[⟨"p1", "g", "t", 0, "open", some 99, none⟩], [⟨"o1", "p1", "L", none⟩], []⟩
        "p1" "u" (some "N") [⟨some "o1", some 2⟩] 10).2.2
      ⟨"p1", "g", "t", 0, "open", some 99, none⟩ [⟨"o1", "p1", "L", none⟩]
      (by decide) (by decide)
      (by intro d hd h0; rw [← Option.some.inj hd]; decide)
    rw [h]
    rfl

/-- Claim C10: a vote postback for an option on which the caller's
recorded choice is already 2 (yes) performs no upsert and publishes no
tally event — the store is returned unchanged and the only effect is
the already-recorded acknowledgement reply. -/
theorem vote_postback_already_yes_noop (db : DB) (pid oid uid : String)
    (nm : Option String) (now : Nat) (r : VoteRow)
    (hfind : getUserChoice3 db pid uid oid = some r) (hyes : r.choice = 2) :
    votePostback db pid oid uid nm now
      = (db, [Eff.reply [Msg.text "この候補への○は既に記録されています。"]]) := by
  unfold votePostback
  rw [hfind]
  dsimp only
  rw [if_pos (by simp [hyes])]

/-- Claim C10 witness: a repeated yes postback on a concrete state is a
pure acknowledgement. -/
theorem vote_postback_already_yes_witness :
    votePostback ⟨[⟨"p1", "g", "t", 0, "open", none, none⟩], [⟨"o1", "p1", "L", none⟩],
        [⟨"p1", "o1", "u1", some "N", 2, 3⟩]⟩ "p1" "o1" "u1" (some "N") 9
      = (⟨[⟨"p1", "g", "t", 0, "open", none, none⟩], [⟨"o1", "p1", "L", none⟩],
          [⟨"p1", "o1", "u1", some "N", 2, 3⟩]⟩,
         [Eff.reply [Msg.text "この候補への○は既に記録されています。"]]) :=
  vote_postback_already_yes_noop
    ⟨[⟨"p1", "g", "t", 0, "open", none, none⟩], [⟨"o1", "p1", "L", none⟩],
      [⟨"p1", "o1", "u1", some "N", 2, 3⟩]⟩
    "p1" "o1" "u1" (some "N") 9 ⟨"p1", "o1", "u1", some "N", 2, 3⟩
    (by decide) (by decide)

end Kansuke
